import Mathlib

/-!
Verification of the schema-driven serialization framework of shapez.io
(`src/js/savegame/serialization.js`, provided as `src/unnamed/part_002`).

The JavaScript value universe is embedded as `JValue` (a nested inductive
over JSON-like data plus the live 2D-vector objects that the framework's
vector descriptor serializes).  JS field maps are association lists of
`String` keys; JS mutation of an object is explicit state passing, and a
thrown JS exception is an `Except.error` while a returned error string is
an `Option String` in the `ok` branch.
-/

/-- A JavaScript value: `null`, `undefined`, booleans, numbers (modelled as
rationals, which contain every finite double exactly), strings, arrays,
plain objects (ordered association lists, as JS objects preserve insertion
order), and live 2D vector instances (`Vector` objects with `x`/`y`). -/
inductive JValue where
  | null : JValue
  | undefined : JValue
  | bool : Bool → JValue
  | num : Rat → JValue
  | str : String → JValue
  | arr : List JValue → JValue
  | obj : List (String × JValue) → JValue
  | vec : Rat → Rat → JValue

/-- JS truthiness: `null`, `undefined`, `false`, `0`, and the empty string
are falsy; every other value (including empty arrays and objects) is truthy. -/
def JValue.truthy : JValue → Bool
  | .null => false
  | .undefined => false
  | .bool b => b
  | .num q => !(decide (q = 0))
  | .str s => !(s == "")
  | _ => true

/-- Whether a value is `null` or `undefined` (the check
`data[key] === null || data[key] === undefined` of the engine). -/
def isNullOrUndefined : JValue → Bool
  | .null => true
  | .undefined => true
  | _ => false

/-- First-match lookup in a string-keyed association list
(JS property read on an object that owns the key). -/
def lookupKey {α : Type} : List (String × α) → String → Option α
  | [], _ => none
  | e :: rest, k => if e.1 == k then some e.2 else lookupKey rest k

/-- JS `hasOwnProperty` on a field map. -/
def hasKey {α : Type} (l : List (String × α)) (k : String) : Bool :=
  (lookupKey l k).isSome

/-- JS property write `o[k] = v`: updates the first binding of `k` in
place, or appends a new binding (insertion order is preserved). -/
def setKey {α : Type} : List (String × α) → String → α → List (String × α)
  | [], k, v => [(k, v)]
  | e :: rest, k, v => if e.1 == k then (k, v) :: rest else e :: setKey rest k v

/-- Left-biased choice on options (`a` wins when present). -/
def orOpt {α : Type} : Option α → Option α → Option α
  | some a, _ => some a
  | none, b => b

/-- JS member access `v[k]` under the engine's use: reading a property of
`null`/`undefined` throws a `TypeError`; an object yields the bound value
or `undefined`; any other value yields `undefined` (boxed-primitive own
properties such as string indices are not modelled, the engine only reads
members of payload objects). -/
def getMemberE : JValue → String → Except String JValue
  | .null, _ => .error "TypeError: cannot read property of null"
  | .undefined, _ => .error "TypeError: cannot read property of undefined"
  | .obj fs, k => .ok ((lookupKey fs k).getD .undefined)
  | _, _ => .ok .undefined

/-- JS `data.hasOwnProperty(key)` as used by the engine: throws a
`TypeError` when `data` is `null`/`undefined`, otherwise reports key
ownership (non-objects own none of the schema keys). -/
def hasOwnPropertyE : JValue → String → Except String Bool
  | .null, _ => .error "TypeError: cannot read property hasOwnProperty of null"
  | .undefined, _ => .error "TypeError: cannot read property hasOwnProperty of undefined"
  | .obj fs, k => .ok (hasKey fs k)
  | _, _ => .ok false

/-- Modelled from the spec: the "empty/default" values that a
`KeyValueMap` with `includeEmptyValues = false` prunes on serialize
(spec section 3): the JS falsy leaves and empty containers. -/
def isEmptyValue : JValue → Bool
  | .null => true
  | .undefined => true
  | .bool b => !b
  | .num q => decide (q = 0)
  | .str s => s == ""
  | .arr xs => xs.isEmpty
  | .obj fs => fs.isEmpty
  | .vec _ _ => false

/-- Modelled from the spec: the Data Type Descriptor variants exercised by
the round-trip property (spec sections 3 and 8).  The concrete descriptor
classes live in `serialization_data_types.js`, which is not part of the
provided sources; the registry- and entity-based variants need live
collaborators and are not needed by the round-trip claim. -/
inductive DataType where
  | int : DataType
  | uint : DataType
  | float : DataType
  | ufloat : DataType
  | str : DataType
  | bool : DataType
  | vector : DataType
  | enum : List String → DataType
  | nullable : DataType → DataType
  | array : DataType → DataType
  | keyValueMap : DataType → Bool → DataType

/-- Map a fallible conversion over a list, failing on the first error
(array elements are converted independently, in order). -/
def mapExceptList (f : JValue → Except String JValue) : List JValue → Except String (List JValue)
  | [] => .ok []
  | x :: xs =>
    match f x with
    | .error e => .error e
    | .ok y =>
      match mapExceptList f xs with
      | .error e => .error e
      | .ok ys => .ok (y :: ys)

/-- Map a fallible conversion over the values of a field map, failing on
the first error. -/
def mapExceptFields (f : JValue → Except String JValue) :
    List (String × JValue) → Except String (List (String × JValue))
  | [] => .ok []
  | (k, x) :: fs =>
    match f x with
    | .error e => .error e
    | .ok y =>
      match mapExceptFields f fs with
      | .error e => .error e
      | .ok gs => .ok ((k, y) :: gs)

/-- Serialize every value of a field map with `f`; when `includeEmpty` is
false, entries whose serialized value is empty/default are pruned. -/
def mapFieldsFilter (f : JValue → JValue) (includeEmpty : Bool) :
    List (String × JValue) → List (String × JValue)
  | [] => []
  | (k, x) :: fs =>
    let s := f x
    if includeEmpty || !(isEmptyValue s) then (k, s) :: mapFieldsFilter f includeEmpty fs
    else mapFieldsFilter f includeEmpty fs

/-- Modelled from the spec: which live values conform to a descriptor
(spec section 3): integral numbers for `int`, non-negative integral
numbers for `uint`, any number for `float`, non-negative for `ufloat`,
strings, booleans, live vectors, enum members, `null` or an inner value
for `nullable`, and element-wise conformance for arrays and maps. -/
def validForB (d : DataType) : JValue → Bool :=
  match d with
  | .int => fun v => match v with | .num q => q.den == 1 | _ => false
  | .uint => fun v => match v with | .num q => q.den == 1 && decide (0 ≤ q.num) | _ => false
  | .float => fun v => match v with | .num _ => true | _ => false
  | .ufloat => fun v => match v with | .num q => decide (0 ≤ q.num) | _ => false
  | .str => fun v => match v with | .str _ => true | _ => false
  | .bool => fun v => match v with | .bool _ => true | _ => false
  | .vector => fun v => match v with | .vec _ _ => true | _ => false
  | .enum values => fun v => match v with | .str s => values.contains s | _ => false
  | .nullable inner => fun v => match v with | .null => true | _ => validForB inner v
  | .array inner => fun v => match v with | .arr xs => xs.all (validForB inner) | _ => false
  | .keyValueMap inner _ => fun v =>
      match v with | .obj fs => fs.all (fun kv => validForB inner kv.2) | _ => false

/-- Modelled from the spec: `serialize` per descriptor variant (spec
section 4.1): primitives, strings, booleans and enum members serialize to
the same scalar; a live vector serializes to the literal
`{x: ..., y: ...}`; `nullable` passes `null` through and otherwise defers
to the wrapped descriptor; arrays serialize element-wise; key-value maps
serialize value-wise, pruning empty/default values unless
`includeEmptyValues` is set.  `serialize` never fails on a conforming
value; on a non-conforming value it is best effort and returns the value. -/
def serializeD (d : DataType) : JValue → JValue :=
  match d with
  | .int => fun v => v
  | .uint => fun v => v
  | .float => fun v => v
  | .ufloat => fun v => v
  | .str => fun v => v
  | .bool => fun v => v
  | .vector => fun v => match v with | .vec a b => .obj [("x", .num a), ("y", .num b)] | _ => v
  | .enum _ => fun v => v
  | .nullable inner => fun v => match v with | .null => .null | _ => serializeD inner v
  | .array inner => fun v => match v with | .arr xs => .arr (xs.map (serializeD inner)) | _ => v
  | .keyValueMap inner includeEmpty => fun v =>
      match v with
      | .obj fs => .obj (mapFieldsFilter (serializeD inner) includeEmpty fs)
      | _ => v

/-- Modelled from the spec: `deserializeWithVerify` per descriptor variant
(spec section 4.1): the raw value's shape is verified first and a shape
violation is reported as a returned error description, then the raw value
is converted back to the live value.  The engine performs the assignment
of the produced value into the containing object's field. -/
def deserializeWithVerifyD (d : DataType) : JValue → Except String JValue :=
  match d with
  | .int => fun raw =>
      match raw with
      | .num q => if q.den == 1 then .ok (.num q) else .error "Expected integer"
      | _ => .error "Expected integer"
  | .uint => fun raw =>
      match raw with
      | .num q =>
        if q.den == 1 && decide (0 ≤ q.num) then .ok (.num q)
        else .error "Expected non-negative integer"
      | _ => .error "Expected non-negative integer"
  | .float => fun raw =>
      match raw with
      | .num q => .ok (.num q)
      | _ => .error "Expected number"
  | .ufloat => fun raw =>
      match raw with
      | .num q => if decide (0 ≤ q.num) then .ok (.num q) else .error "Expected non-negative number"
      | _ => .error "Expected non-negative number"
  | .str => fun raw =>
      match raw with
      | .str s => .ok (.str s)
      | _ => .error "Expected string"
  | .bool => fun raw =>
      match raw with
      | .bool b => .ok (.bool b)
      | _ => .error "Expected boolean"
  | .vector => fun raw =>
      match raw with
      | .obj [("x", .num a), ("y", .num b)] => .ok (.vec a b)
      | _ => .error "Expected vector"
  | .enum values => fun raw =>
      match raw with
      | .str s => if values.contains s then .ok (.str s) else .error ("Invalid enum value: " ++ s)
      | _ => .error "Expected enum string"
  | .nullable inner => fun raw =>
      match raw with
      | .null => .ok .null
      | _ => deserializeWithVerifyD inner raw
  | .array inner => fun raw =>
      match raw with
      | .arr xs =>
        match mapExceptList (deserializeWithVerifyD inner) xs with
        | .error e => .error e
        | .ok ys => .ok (.arr ys)
      | _ => .error "Expected array"
  | .keyValueMap inner _ => fun raw =>
      match raw with
      | .obj fs =>
        match mapExceptFields (deserializeWithVerifyD inner) fs with
        | .error e => .error e
        | .ok gs => .ok (.obj gs)
      | _ => .error "Expected object"

/-- Modelled from the spec: `verifySerializedValue` is the shape-only
check of `deserializeWithVerify` (spec section 8 requires verify to be
neither stricter nor looser than the validation deserialize performs). -/
def verifySerializedValueD (d : DataType) (raw : JValue) : Option String :=
  match deserializeWithVerifyD d raw with
  | .ok _ => none
  | .error e => some e

/-- Modelled from the spec: `allowNull` is true exactly for
`Nullable`-wrapped descriptors (spec section 4.1). -/
def allowNullD : DataType → Bool
  | .nullable _ => true
  | _ => false

/-- A descriptor contains no pruning key-value map: every `keyValueMap`
inside it retains empty values. -/
def noPruning : DataType → Bool
  | .nullable inner => noPruning inner
  | .array inner => noPruning inner
  | .keyValueMap inner includeEmpty => includeEmpty && noPruning inner
  | _ => true

/-- A Data Type Descriptor as the engine sees it
(`serialization_data_types.js` exports `BaseDataType`; the engine of
`serialization.js` only calls the four operations below).  The source's
`deserializeWithVerify(rawValue, targetObject, targetKey, root)` verifies
and converts `rawValue` and, on success, assigns the produced value into
`targetObject[targetKey]`; it is modelled as `deserializeValue` producing
the value to assign (the engine embedding performs that assignment), with
an `Except.error` for the returned error description.  The `root`
parameter only matters for entity descriptors, which need a live
simulation registry and are outside the embedded sources. -/
structure BaseDataType where
  serialize : JValue → JValue
  deserializeValue : JValue → Except String JValue
  verifySerializedValue : JValue → Option String
  allowNull : Bool

/-- View a spec-modelled descriptor as an engine descriptor. -/
def DataType.toBase (d : DataType) : BaseDataType :=
  { serialize := serializeD d
    deserializeValue := deserializeWithVerifyD d
    verifySerializedValue := verifySerializedValueD d
    allowNull := allowNullD d }

/-- A full schema declaration: an ordered mapping from field name to
descriptor (`@typedef {Object.<string, BaseDataType>} Schema`). -/
abbrev Schema := List (String × BaseDataType)

/-- A live serializable object: its class name (`obj.constructor.name`,
used in engine error messages) and its named fields. -/
structure SObj where
  className : String
  fields : List (String × JValue)

/-- JS field assignment `obj[key] = value` on a live object. -/
def setField (obj : SObj) (k : String) (v : JValue) : SObj :=
  { obj with fields := setKey obj.fields k v }

/-- The field read `obj[key]` of `serializeSchema` (the engine asserts
ownership first, so the default is never reached on the asserted path). -/
def getFieldD (obj : SObj) (k : String) : JValue :=
  (lookupKey obj.fields k).getD .undefined

/-- JS truthiness of the `string|void|null` error results the engine
tests with `if (errorStatus)` / `if (baseclassErrorResult)`: absent or
empty strings are falsy. -/
def truthyOptStr : Option String → Bool
  | none => false
  | some s => !(s == "")

/-- The engine function `serializeSchema(obj, schema, mergeWith)` from `serialization.js`:
for each schema field, assert that the live object owns a same-named
field (`none` models the fatal dev-build assertion) and store the
descriptor's `serialize` of the field value under the same name in
`mergeWith`.  (The `if (!schema[key])` assertion of the source cannot
fire here: the iterated association list always carries a descriptor.) -/
def serializeSchema (obj : SObj) (schema : Schema) (mergeWith : List (String × JValue)) :
    Option (List (String × JValue)) :=
  match schema with
  | [] => some mergeWith
  | (key, descriptor) :: rest =>
    if hasKey obj.fields key then
      serializeSchema obj rest (setKey mergeWith key (descriptor.serialize (getFieldD obj key)))
    else none

/-- The `for (const key in schema)` loop of `deserializeSchema`: fail with
a missing-key error, fail with a non-nullable-null error when the value is
`null`/`undefined` and the descriptor does not `allowNull()`, otherwise
run the descriptor's `deserializeWithVerify` (assigning the produced value
into the object) and return its error if it is truthy.  A thrown JS
exception is `Except.error`; a returned error description is
`Except.ok (·, some e)`. -/
def deserializeFields (obj : SObj) (schema : Schema) (data : JValue) :
    Except String (SObj × Option String) :=
  match schema with
  | [] => .ok (obj, none)
  | (key, descriptor) :: rest =>
    match hasOwnPropertyE data key with
    | .error ex => .error ex
    | .ok false =>
      .ok (obj, some ("Missing key in schema: " ++ key ++ " of class " ++ obj.className))
    | .ok true =>
      match getMemberE data key with
      | .error ex => .error ex
      | .ok rawValue =>
        if !descriptor.allowNull && isNullOrUndefined rawValue then
          .ok (obj, some ("Non-nullable entry is null: " ++ key ++ " of class " ++ obj.className))
        else
          match descriptor.deserializeValue rawValue with
          | .ok value => deserializeFields (setField obj key value) rest data
          | .error errorStatus =>
            if errorStatus == "" then deserializeFields obj rest data
            else .ok (obj, some errorStatus)

/-- The engine function `deserializeSchema(obj, schema, data, baseclassErrorResult)` from
`serialization.js`: a truthy inherited error is returned unchanged, a
falsy `data` yields the "Got null data" error, otherwise the fields are
walked in declaration order. -/
def deserializeSchema (obj : SObj) (schema : Schema) (data : JValue)
    (baseclassErrorResult : Option String) : Except String (SObj × Option String) :=
  if truthyOptStr baseclassErrorResult then .ok (obj, baseclassErrorResult)
  else if !data.truthy then .ok (obj, some "Got null data")
  else deserializeFields obj schema data

/-- The engine function `verifySchema(schema, data)` from `serialization.js`: the same field
walk as `deserializeSchema`, calling only `verifySerializedValue`.  Note
that the source has no falsy-`data` guard: the first `hasOwnProperty`
call on a `null`/`undefined` payload throws. -/
def verifySchema (schema : Schema) (data : JValue) : Except String (Option String) :=
  match schema with
  | [] => .ok none
  | (key, descriptor) :: rest =>
    match hasOwnPropertyE data key with
    | .error ex => .error ex
    | .ok false => .ok (some ("verify: missing key required by schema in stored data: " ++ key))
    | .ok true =>
      match getMemberE data key with
      | .error ex => .error ex
      | .ok rawValue =>
        if !descriptor.allowNull && isNullOrUndefined rawValue then
          .ok (some ("verify: non-nullable entry is null: " ++ key))
        else
          match descriptor.verifySerializedValue rawValue with
          | some errorStatus =>
            if errorStatus == "" then verifySchema rest data
            else .ok (some ("verify: " ++ errorStatus))
          | none => verifySchema rest data

/-- The loop of `extendSchema(base, newOne)` from `serialization.js`, with `result`
initialized to a copy of `base` (`Object.assign({}, base)`): each key of
`newOne` already present in `result` is a flagged configuration error and
is skipped (the base definition wins), every other entry is added. -/
def extendSchemaFrom (result : Schema) : Schema → Schema
  | [] => result
  | (key, d) :: rest =>
    if hasKey result key then extendSchemaFrom result rest
    else extendSchemaFrom (result ++ [(key, d)]) rest

/-- Schema extension `extendSchema(base, newOne)`: see `extendSchemaFrom`. -/
def extendSchema (base newOne : Schema) : Schema :=
  extendSchemaFrom base newOne

/-- A serializable class as `getCachedSchema` uses it: its stable class
identifier (`static getId()`) and its schema factory (`static
getSchema()`); the factory takes `Unit` so that invocations are explicit. -/
structure SerializableClass where
  getId : String
  getSchema : Unit → Schema

/-- The method `BasicSerializableObject.getCachedSchema()` over the explicit
process-wide `globalSchemaCache` state: a cached entry (always a truthy
JS object) is returned as is; otherwise the class's `getSchema` factory
runs and its result is stored.  The returned `Nat` counts the factory
invocations this call performed (0 or 1).  The `dev:start`/`dev:end`
duplicate-identifier assertion is compiled out of non-dev builds and is
not modelled. -/
def getCachedSchema (cls : SerializableClass) (cache : List (String × Schema)) :
    Schema × List (String × Schema) × Nat :=
  match lookupKey cache cls.getId with
  | some entry => (entry, cache, 0)
  | none =>
    let schema := cls.getSchema ()
    (schema, setKey cache cls.getId schema, 1)

@[simp]
theorem orOpt_none_left {α : Type} (b : Option α) : orOpt none b = b := rfl

@[simp]
theorem orOpt_some_left {α : Type} (a : α) (b : Option α) : orOpt (some a) b = some a := rfl

@[simp]
theorem orOpt_none_right {α : Type} (a : Option α) : orOpt a none = a := by
  cases a <;> rfl

theorem lookupKey_eq_none_of_hasKey_false {α : Type} (l : List (String × α)) (k : String)
    (h : hasKey l k = false) : lookupKey l k = none := by
  unfold hasKey at h
  cases hl : lookupKey l k
  · rfl
  · rw [hl] at h
    simp at h

theorem exists_lookupKey_of_hasKey {α : Type} (l : List (String × α)) (k : String)
    (h : hasKey l k = true) : ∃ a, lookupKey l k = some a := by
  unfold hasKey at h
  cases hl : lookupKey l k
  · rw [hl] at h
    simp at h
  · exact ⟨_, rfl⟩

theorem lookupKey_setKey_self {α : Type} (l : List (String × α)) (k : String) (v : α) :
    lookupKey (setKey l k v) k = some v := by
  induction l with
  | nil => simp [setKey, lookupKey]
  | cons e rest ih =>
    by_cases h : e.1 == k
    · simp [setKey, h, lookupKey]
    · simp [setKey, h, lookupKey, ih]

theorem lookupKey_setKey_ne {α : Type} (l : List (String × α)) (k k2 : String) (v : α)
    (h : k2 ≠ k) : lookupKey (setKey l k v) k2 = lookupKey l k2 := by
  induction l with
  | nil => simp [setKey, lookupKey, beq_iff_eq, Ne.symm h]
  | cons e rest ih =>
    by_cases he : e.1 == k
    · have he2 : e.1 = k := by simpa [beq_iff_eq] using he
      simp [setKey, he, lookupKey, he2, beq_iff_eq, Ne.symm h]
    · simp [setKey, he, lookupKey, ih]

theorem lookupKey_append {α : Type} (l1 l2 : List (String × α)) (k : String) :
    lookupKey (l1 ++ l2) k = orOpt (lookupKey l1 k) (lookupKey l2 k) := by
  induction l1 with
  | nil => simp [lookupKey]
  | cons e rest ih =>
    by_cases h : e.1 == k
    · simp [lookupKey, h]
    · simp [lookupKey, h, ih]

theorem isNullOrUndefined_eq_false_of_truthy (v : JValue) (h : v.truthy = true) :
    isNullOrUndefined v = false := by
  cases v <;> simp_all [JValue.truthy, isNullOrUndefined]

theorem hasOwnPropertyE_ok (v : JValue) (k : String) (h : isNullOrUndefined v = false) :
    ∃ b, hasOwnPropertyE v k = .ok b := by
  cases v <;> first
    | exact ⟨_, rfl⟩
    | simp [isNullOrUndefined] at h

theorem getMemberE_ok (v : JValue) (k : String) (h : isNullOrUndefined v = false) :
    ∃ r, getMemberE v k = .ok r := by
  cases v <;> first
    | exact ⟨_, rfl⟩
    | simp [isNullOrUndefined] at h

/-- Sample concrete descriptor used by witnesses: unsigned integer. -/
def uintBase : BaseDataType := DataType.uint.toBase

/-- Sample concrete descriptor used by witnesses: the goal-reward enum. -/
def enumRewardBase : BaseDataType := (DataType.enum ["none", "belt"]).toBase

/-- Sample fresh live object used by witnesses. -/
def sampleObj : SObj := ⟨"HubGoals", []⟩

/-- C2: for a class with a fixed identifier whose identifier is not yet
cached, the first `getCachedSchema` call invokes the class's `getSchema`
factory exactly once and stores its result, and any subsequent call for
that identifier — whatever factory the class object carries — returns the
very stored schema, with the cache unchanged and zero factory
invocations. -/
theorem getCachedSchema_idempotent (cls : SerializableClass)
    (cache : List (String × Schema)) (s1 : Schema) (c1 : List (String × Schema)) (n1 : Nat)
    (hfresh : lookupKey cache cls.getId = none)
    (hcall : getCachedSchema cls cache = (s1, c1, n1)) :
    s1 = cls.getSchema () ∧ n1 = 1 ∧
      (∀ g : Unit → Schema,
        getCachedSchema { getId := cls.getId, getSchema := g } c1 = (s1, c1, 0)) := by
  simp [getCachedSchema, hfresh] at hcall
  obtain ⟨hs, hc, hn⟩ := hcall
  refine ⟨hs.symm, hn.symm, ?_⟩
  intro g
  have hlook : lookupKey c1 cls.getId = some s1 := by
    rw [← hc, ← hs]
    exact lookupKey_setKey_self cache cls.getId (cls.getSchema ())
  simp [getCachedSchema, hlook]

theorem getCachedSchema_idempotent_witness :
    getCachedSchema ⟨"HubGoals", fun _ => [("level", uintBase)]⟩ [] =
      ([("level", uintBase)], [("HubGoals", [("level", uintBase)])], 1)
    ∧ ([("level", uintBase)] =
        (⟨"HubGoals", fun _ => [("level", uintBase)]⟩ : SerializableClass).getSchema ()
      ∧ (1 : Nat) = 1
      ∧ (∀ g : Unit → Schema,
          getCachedSchema { getId := "HubGoals", getSchema := g }
              [("HubGoals", [("level", uintBase)])] =
            ([("level", uintBase)], [("HubGoals", [("level", uintBase)])], 0))) :=
  ⟨rfl, getCachedSchema_idempotent ⟨"HubGoals", fun _ => [("level", uintBase)]⟩ [] _ _ _ rfl rfl⟩

theorem mem_extendSchemaFrom (res es : Schema) (e : String × BaseDataType) (h : e ∈ res) :
    e ∈ extendSchemaFrom res es := by
  induction es generalizing res with
  | nil => simpa [extendSchemaFrom] using h
  | cons kd rest ih =>
    obtain ⟨key, d⟩ := kd
    by_cases hk : hasKey res key
    · rw [extendSchemaFrom]
      simp only [hk, if_true]
      exact ih res h
    · rw [extendSchemaFrom]
      simp only [hk, if_false, Bool.false_eq_true]
      exact ih _ (List.mem_append_left _ h)

theorem lookupKey_extendSchemaFrom (res es : Schema) (k : String) :
    lookupKey (extendSchemaFrom res es) k = orOpt (lookupKey res k) (lookupKey es k) := by
  induction es generalizing res with
  | nil =>
    cases h : lookupKey res k <;> simp [extendSchemaFrom, h, lookupKey]
  | cons kd rest ih =>
    obtain ⟨key, d⟩ := kd
    by_cases hk : hasKey res key
    · rw [extendSchemaFrom]
      simp only [hk, if_true]
      rw [ih]
      by_cases hkey : key = k
      · subst hkey
        obtain ⟨a, ha⟩ := exists_lookupKey_of_hasKey res key hk
        simp [lookupKey, ha]
      · simp [lookupKey, beq_iff_eq, hkey]
    · rw [extendSchemaFrom]
      simp only [hk, if_false, Bool.false_eq_true]
      rw [ih, lookupKey_append]
      by_cases hkey : key = k
      · subst hkey
        have hnone : lookupKey res key = none := lookupKey_eq_none_of_hasKey_false res key (by
          cases h2 : hasKey res key
          · rfl
          · exact absurd h2 hk)
        simp [lookupKey, hnone]
      · simp [lookupKey, beq_iff_eq, hkey]

/-- C3: `extendSchema base additional` behaves as base-wins union: lookup
of any key falls back from `base` to `additional`, every entry of `base`
survives, and on the concrete examples `extendSchema {a: X} {b: Y} =
{a: X, b: Y}` while `extendSchema {a: X} {a: Z} = {a: X}` (the conflicting
entry from `additional` is dropped; the recorded diagnostic is a log line
outside the data semantics). -/
theorem extendSchema_spec (base add : Schema) :
    (∀ k, lookupKey (extendSchema base add) k = orOpt (lookupKey base k) (lookupKey add k))
    ∧ (∀ e, e ∈ base → e ∈ extendSchema base add)
    ∧ (∀ X Y : BaseDataType, extendSchema [("a", X)] [("b", Y)] = [("a", X), ("b", Y)])
    ∧ (∀ X Z : BaseDataType, extendSchema [("a", X)] [("a", Z)] = [("a", X)]) := by
  refine ⟨fun k => lookupKey_extendSchemaFrom base add k,
    fun e he => mem_extendSchemaFrom base add e he, ?_, ?_⟩
  · intro X Y
    rfl
  · intro X Z
    rfl

theorem extendSchema_spec_witness :
    (lookupKey (extendSchema [("a", uintBase)] [("a", enumRewardBase)]) "a" =
      orOpt (lookupKey [("a", uintBase)] "a") (lookupKey [("a", enumRewardBase)] "a"))
    ∧ ("a", uintBase) ∈ extendSchema [("a", uintBase)] [("a", enumRewardBase)]
    ∧ extendSchema [("a", uintBase)] [("b", enumRewardBase)] = [("a", uintBase), ("b", enumRewardBase)]
    ∧ extendSchema [("a", uintBase)] [("a", enumRewardBase)] = [("a", uintBase)] :=
  ⟨(extendSchema_spec [("a", uintBase)] [("a", enumRewardBase)]).1 "a",
   (extendSchema_spec [("a", uintBase)] [("a", enumRewardBase)]).2.1 _ (List.Mem.head _),
   (extendSchema_spec [("a", uintBase)] [("b", enumRewardBase)]).2.2.1 uintBase enumRewardBase,
   (extendSchema_spec [("a", uintBase)] [("a", enumRewardBase)]).2.2.2 uintBase enumRewardBase⟩

/-- C9: `deserializeSchema` (with no inherited base-class error) returns
the error "Got null data" for every falsy raw-data argument — `null`,
`undefined`, `0`, the empty string, `false` — before looking at any schema
field: the schema is arbitrary, in particular it may be empty. -/
theorem deserializeSchema_falsy_data (obj : SObj) (schema : Schema) (data : JValue)
    (h : data.truthy = false) :
    deserializeSchema obj schema data none = .ok (obj, some "Got null data") := by
  simp [deserializeSchema, truthyOptStr, h]

theorem deserializeSchema_falsy_data_witness :
    deserializeSchema sampleObj [] (.num 0) none = .ok (sampleObj, some "Got null data")
    ∧ deserializeSchema sampleObj [("level", uintBase)] (.str "") none
        = .ok (sampleObj, some "Got null data")
    ∧ deserializeSchema sampleObj [("level", uintBase)] (.bool false) none
        = .ok (sampleObj, some "Got null data")
    ∧ deserializeSchema sampleObj [] .null none = .ok (sampleObj, some "Got null data") :=
  ⟨deserializeSchema_falsy_data _ _ _ (by rfl),
   deserializeSchema_falsy_data _ _ _ (by rfl),
   deserializeSchema_falsy_data _ _ _ (by rfl),
   deserializeSchema_falsy_data _ _ _ (by rfl)⟩

theorem deserializeFields_append (s1 : Schema) (s2 : Schema) (data : JValue) :
    ∀ obj : SObj, deserializeFields obj (s1 ++ s2) data =
      match deserializeFields obj s1 data with
      | .error ex => .error ex
      | .ok (obj1, some e) => .ok (obj1, some e)
      | .ok (obj1, none) => deserializeFields obj1 s2 data := by
  induction s1 with
  | nil => intro obj; rfl
  | cons kd rest ih =>
    intro obj
    obtain ⟨key, d⟩ := kd
    simp only [List.cons_append, deserializeFields]
    cases h1 : hasOwnPropertyE data key with
    | error ex => rfl
    | ok b =>
      cases b with
      | false => rfl
      | true =>
        cases h2 : getMemberE data key with
        | error ex => rfl
        | ok raw =>
          by_cases h3 : (!d.allowNull && isNullOrUndefined raw) = true
          · simp only [h3, if_true]
          · simp only [h3, if_false, Bool.false_eq_true]
            cases h4 : d.deserializeValue raw with
            | ok v => exact ih (setField obj key v)
            | error e =>
              by_cases h5 : (e == "") = true
              · simp only [h5, if_true]
                exact ih obj
              · simp only [h5, if_false, Bool.false_eq_true]

/-- C7: when the schema walk of `deserializeSchema` reaches a field whose
descriptor returns a (truthy) error, the walk halts there — the trailing
schema fields `s2` are arbitrary and do not influence the result — the
descriptor's error is returned, and the returned object is exactly the
object produced by the successful prefix walk: every earlier field that
was assigned stays assigned, with no rollback. -/
theorem deserializeSchema_first_error (obj obj1 : SObj) (s1 s2 : Schema) (k : String)
    (d : BaseDataType) (data raw : JValue) (e : String)
    (hdata : data.truthy = true)
    (hpre : deserializeFields obj s1 data = .ok (obj1, none))
    (hhas : hasOwnPropertyE data k = .ok true)
    (hget : getMemberE data k = .ok raw)
    (hnull : (!d.allowNull && isNullOrUndefined raw) = false)
    (hfail : d.deserializeValue raw = .error e)
    (hne : (e == "") = false) :
    deserializeSchema obj (s1 ++ (k, d) :: s2) data none = .ok (obj1, some e) := by
  rw [deserializeSchema]
  simp only [truthyOptStr, hdata, Bool.not_true, if_false, Bool.false_eq_true]
  rw [deserializeFields_append, hpre]
  simp only [deserializeFields]
  rw [hhas, hget]
  simp only [hnull, if_false, Bool.false_eq_true, hfail, hne]

theorem deserializeSchema_first_error_witness :
    deserializeSchema sampleObj [("level", uintBase), ("reward", enumRewardBase)]
        (.obj [("level", .num 3), ("reward", .str "nuclear")]) none
      = .ok (⟨"HubGoals", [("level", .num 3)]⟩, some "Invalid enum value: nuclear") :=
  deserializeSchema_first_error sampleObj ⟨"HubGoals", [("level", .num 3)]⟩
    [("level", uintBase)] [] "reward" enumRewardBase
    (.obj [("level", .num 3), ("reward", .str "nuclear")]) (.str "nuclear")
    "Invalid enum value: nuclear" rfl rfl rfl rfl rfl rfl rfl

/-- C5: when the schema walk of `deserializeSchema` reaches a field whose
descriptor does not `allowNull()`, a payload that lacks the key, or binds
it to `null`/`undefined`, produces the error naming that field, and the
field's `deserializeWithVerify` is never invoked: the result is the same
for every deserialization behavior `f` the descriptor might have. -/
theorem deserializeSchema_nonnullable_null (obj obj1 : SObj) (s1 s2 : Schema) (k : String)
    (d : BaseDataType) (data : JValue)
    (hdata : data.truthy = true)
    (hpre : deserializeFields obj s1 data = .ok (obj1, none))
    (hnn : d.allowNull = false) :
    (hasOwnPropertyE data k = .ok false →
      ∀ f : JValue → Except String JValue,
        deserializeSchema obj (s1 ++ (k, { d with deserializeValue := f }) :: s2) data none
          = .ok (obj1, some ("Missing key in schema: " ++ k ++ " of class " ++ obj1.className)))
    ∧ (∀ raw : JValue, hasOwnPropertyE data k = .ok true → getMemberE data k = .ok raw →
        isNullOrUndefined raw = true →
        ∀ f : JValue → Except String JValue,
          deserializeSchema obj (s1 ++ (k, { d with deserializeValue := f }) :: s2) data none
            = .ok (obj1, some ("Non-nullable entry is null: " ++ k ++ " of class "
                ++ obj1.className))) := by
  constructor
  · intro hhas f
    rw [deserializeSchema]
    simp only [truthyOptStr, hdata, Bool.not_true, if_false, Bool.false_eq_true]
    rw [deserializeFields_append, hpre]
    simp only [deserializeFields]
    rw [hhas]
  · intro raw hhas hget hnullv f
    rw [deserializeSchema]
    simp only [truthyOptStr, hdata, Bool.not_true, if_false, Bool.false_eq_true]
    rw [deserializeFields_append, hpre]
    simp only [deserializeFields]
    rw [hhas, hget]
    simp only [hnn, hnullv, Bool.not_false, Bool.true_and, if_true]

theorem deserializeSchema_nonnullable_null_witness :
    deserializeSchema sampleObj
        [("level", uintBase),
         ("reward", { enumRewardBase with deserializeValue := fun _ => .error "never invoked" })]
        (.obj [("level", .num 3), ("reward", .null)]) none
      = .ok (⟨"HubGoals", [("level", .num 3)]⟩,
          some ("Non-nullable entry is null: " ++ "reward" ++ " of class "
            ++ (SObj.mk "HubGoals" [("level", .num 3)]).className)) :=
  (deserializeSchema_nonnullable_null sampleObj ⟨"HubGoals", [("level", .num 3)]⟩
      [("level", uintBase)] [] "reward" enumRewardBase
      (.obj [("level", .num 3), ("reward", .null)]) rfl rfl rfl).2
    .null rfl rfl rfl (fun _ => .error "never invoked")

theorem deserializeFields_no_throw (schema : Schema) (data : JValue)
    (h : isNullOrUndefined data = false) :
    ∀ obj : SObj, ∃ r, deserializeFields obj schema data = .ok r := by
  induction schema with
  | nil => intro obj; exact ⟨(obj, none), rfl⟩
  | cons kd rest ih =>
    intro obj
    obtain ⟨key, d⟩ := kd
    obtain ⟨b, hb⟩ := hasOwnPropertyE_ok data key h
    simp only [deserializeFields]
    rw [hb]
    cases b with
    | false => exact ⟨_, rfl⟩
    | true =>
      obtain ⟨raw, hraw⟩ := getMemberE_ok data key h
      rw [hraw]
      by_cases h3 : (!d.allowNull && isNullOrUndefined raw) = true
      · simp only [h3, if_true]
        exact ⟨_, rfl⟩
      · simp only [h3, if_false, Bool.false_eq_true]
        cases h4 : d.deserializeValue raw with
        | ok v => exact ih (setField obj key v)
        | error e =>
          by_cases h5 : (e == "") = true
          · simp only [h5, if_true]
            exact ih obj
          · simp only [h5, if_false, Bool.false_eq_true]
            exact ⟨_, rfl⟩

theorem verifySchema_no_throw (schema : Schema) (data : JValue)
    (h : isNullOrUndefined data = false) :
    ∃ r, verifySchema schema data = .ok r := by
  induction schema with
  | nil => exact ⟨none, rfl⟩
  | cons kd rest ih =>
    obtain ⟨key, d⟩ := kd
    obtain ⟨b, hb⟩ := hasOwnPropertyE_ok data key h
    simp only [verifySchema]
    rw [hb]
    cases b with
    | false => exact ⟨_, rfl⟩
    | true =>
      obtain ⟨raw, hraw⟩ := getMemberE_ok data key h
      rw [hraw]
      by_cases h3 : (!d.allowNull && isNullOrUndefined raw) = true
      · simp only [h3, if_true]
        exact ⟨_, rfl⟩
      · simp only [h3, if_false, Bool.false_eq_true]
        cases h4 : d.verifySerializedValue raw with
        | none => exact ih
        | some e =>
          by_cases h5 : (e == "") = true
          · simp only [h5, if_true]
            exact ih
          · simp only [h5, if_false, Bool.false_eq_true]
            exact ⟨_, rfl⟩

/-- C8 counterexample: `verifySchema` has no falsy-payload guard, so on an
absent (`null`) payload with a non-empty schema its very first
`data.hasOwnProperty(key)` call throws a `TypeError` — a fault, not a
returned string error description. -/
theorem verifySchema_null_payload_throws :
    verifySchema [("level", uintBase)] .null
      = .error "TypeError: cannot read property hasOwnProperty of null" := rfl

/-- C8 (amended): `deserializeSchema` never throws on any payload — every
data error (absent payload included) is a returned string error
description — and `verifySchema` never throws on any payload that is not
`null`/`undefined`; an absent payload, however, makes `verifySchema`
throw as soon as the schema is non-empty. -/
theorem schema_walk_errors_returned :
    (∀ (obj : SObj) (schema : Schema) (data : JValue) (base : Option String),
      ∃ r, deserializeSchema obj schema data base = .ok r)
    ∧ (∀ (schema : Schema) (data : JValue), isNullOrUndefined data = false →
      ∃ r, verifySchema schema data = .ok r) := by
  constructor
  · intro obj schema data base
    rw [deserializeSchema]
    by_cases h1 : truthyOptStr base = true
    · rw [if_pos h1]
      exact ⟨_, rfl⟩
    · rw [if_neg h1]
      by_cases h2 : (!data.truthy) = true
      · rw [if_pos h2]
        exact ⟨_, rfl⟩
      · rw [if_neg h2]
        have h3 : data.truthy = true := by
          cases hh : data.truthy
          · rw [hh] at h2
            simp at h2
          · rfl
        exact deserializeFields_no_throw schema data
          (isNullOrUndefined_eq_false_of_truthy data h3) obj
  · exact fun schema data h => verifySchema_no_throw schema data h

theorem schema_walk_errors_returned_witness :
    (∃ r, deserializeSchema sampleObj [("level", uintBase)] .null none = .ok r)
    ∧ (isNullOrUndefined (JValue.obj []) = false
      ∧ ∃ r, verifySchema [("level", uintBase)] (.obj []) = .ok r) :=
  ⟨schema_walk_errors_returned.1 sampleObj [("level", uintBase)] .null none,
   rfl, schema_walk_errors_returned.2 [("level", uintBase)] (.obj []) rfl⟩

/-- A heap of JS objects: references (allocation order) to contents.
Mutation of a JS object in place is a `writeH` at its reference. -/
abbrev Heap (α : Type) := List (Nat × α)

/-- Dereference. -/
def readH {α : Type} : Heap α → Nat → Option α
  | [], _ => none
  | e :: rest, r => if e.1 == r then some e.2 else readH rest r

/-- Overwrite the contents behind an existing reference. -/
def writeH {α : Type} : Heap α → Nat → α → Heap α
  | [], _, _ => []
  | e :: rest, r, v => if e.1 == r then (r, v) :: rest else e :: writeH rest r v

/-- The allocated references of a heap. -/
def heapDom {α : Type} (h : Heap α) : List Nat := h.map (fun e => e.1)

/-- A reference not yet allocated in the heap. -/
def freshRef {α : Type} (h : Heap α) : Nat := (heapDom h).foldr max 0 + 1

theorem readH_cons_self {α : Type} (h : Heap α) (r : Nat) (v : α) :
    readH ((r, v) :: h) r = some v := by
  simp [readH]

theorem readH_cons_ne {α : Type} (h : Heap α) (r r2 : Nat) (v : α) (hne : r2 ≠ r) :
    readH ((r, v) :: h) r2 = readH h r2 := by
  simp [readH, beq_iff_eq, Ne.symm hne]

theorem readH_writeH_self {α : Type} (h : Heap α) (r : Nat) (v a : α)
    (hr : readH h r = some a) : readH (writeH h r v) r = some v := by
  induction h with
  | nil => simp [readH] at hr
  | cons e rest ih =>
    by_cases he : e.1 == r
    · simp [writeH, he, readH]
    · rw [readH, if_neg (by simp [he])] at hr
      simp [writeH, he, readH, ih hr]

theorem readH_writeH_ne {α : Type} (h : Heap α) (r r2 : Nat) (v : α) (hne : r2 ≠ r) :
    readH (writeH h r v) r2 = readH h r2 := by
  induction h with
  | nil => simp [writeH]
  | cons e rest ih =>
    by_cases he : e.1 == r
    · have he2 : e.1 = r := by simpa [beq_iff_eq] using he
      simp [writeH, he, readH, beq_iff_eq, Ne.symm hne, he2, ih]
    · simp [writeH, he, readH, ih]

theorem mem_le_foldr_max (l : List Nat) (x : Nat) (hx : x ∈ l) :
    x ≤ l.foldr max 0 := by
  induction l with
  | nil => cases hx
  | cons a rest ih =>
    rcases List.mem_cons.mp hx with h | h
    · subst h
      exact le_max_left _ _
    · exact le_trans (ih h) (le_max_right _ _)

theorem freshRef_not_mem {α : Type} (h : Heap α) : freshRef h ∉ heapDom h := by
  intro hmem
  have hle := mem_le_foldr_max (heapDom h) _ hmem
  unfold freshRef at hle
  omega

theorem readH_some_mem {α : Type} (h : Heap α) (r : Nat) (a : α)
    (hr : readH h r = some a) : r ∈ heapDom h := by
  induction h with
  | nil => simp [readH] at hr
  | cons e rest ih =>
    by_cases he : e.1 == r
    · have he2 : e.1 = r := by simpa [beq_iff_eq] using he
      simp [heapDom, ← he2]
    · rw [readH, if_neg (by simp [he])] at hr
      have := ih hr
      simp [heapDom] at this ⊢
      exact Or.inr this

/-- The `for (const key in newOne)` loop of `extendSchema` as heap
mutation: `result` lives behind reference `r`; each kept entry is a write
`result[key] = newOne[key]` at `r`. -/
def extendSchemaLoop (r : Nat) : Heap Schema → Schema → Heap Schema
  | hp, [] => hp
  | hp, (key, d) :: rest =>
    if hasKey ((readH hp r).getD []) key then extendSchemaLoop r hp rest
    else extendSchemaLoop r (writeH hp r (((readH hp r).getD []) ++ [(key, d)])) rest

/-- Schema extension `extendSchema(base, newOne)` at the heap level: `Object.assign({}, base)`
allocates a fresh object initialized with `base`'s entries, then the loop
mutates only that fresh object; the reference to it is returned. -/
def extendSchemaH (hp : Heap Schema) (baseRef newRef : Nat) : Heap Schema × Nat :=
  (extendSchemaLoop (freshRef hp)
      ((freshRef hp, (readH hp baseRef).getD []) :: hp)
      ((readH hp newRef).getD []),
    freshRef hp)

theorem extendSchemaLoop_frame (r : Nat) (es : Schema) :
    ∀ (hp : Heap Schema) (r2 : Nat), r2 ≠ r →
      readH (extendSchemaLoop r hp es) r2 = readH hp r2 := by
  induction es with
  | nil => intro hp r2 _; rfl
  | cons kd rest ih =>
    intro hp r2 hne
    obtain ⟨key, d⟩ := kd
    simp only [extendSchemaLoop]
    by_cases hk : hasKey ((readH hp r).getD []) key
    · simp only [hk, if_true]
      exact ih hp r2 hne
    · simp only [hk, if_false, Bool.false_eq_true]
      rw [ih _ r2 hne, readH_writeH_ne hp r r2 _ hne]

theorem extendSchemaLoop_result (r : Nat) (es : Schema) :
    ∀ (hp : Heap Schema) (acc : Schema), readH hp r = some acc →
      readH (extendSchemaLoop r hp es) r = some (extendSchemaFrom acc es) := by
  induction es with
  | nil =>
    intro hp acc h
    simpa [extendSchemaLoop, extendSchemaFrom] using h
  | cons kd rest ih =>
    intro hp acc hacc
    obtain ⟨key, d⟩ := kd
    simp only [extendSchemaLoop, extendSchemaFrom, hacc, Option.getD_some]
    by_cases hk : hasKey acc key
    · simp only [hk, if_true]
      exact ih hp acc hacc
    · simp only [hk, if_false, Bool.false_eq_true]
      exact ih _ _ (readH_writeH_self hp r _ acc hacc)

/-- C10: `extendSchema` allocates a fresh mapping (a reference not
allocated before the call), returns it, and leaves both argument mappings
untouched: after the call, `base` and `newOne` dereference to exactly
their old contents, and the fresh reference holds the base-wins union —
so building a derived schema from a parent's cached schema never modifies
the parent's cached schema. -/
theorem extendSchemaH_fresh_frame (hp : Heap Schema) (baseRef newRef : Nat)
    (base newOne : Schema)
    (hb : readH hp baseRef = some base) (hn : readH hp newRef = some newOne) :
    ∃ hp1 r, extendSchemaH hp baseRef newRef = (hp1, r)
      ∧ r ∉ heapDom hp
      ∧ readH hp1 baseRef = some base
      ∧ readH hp1 newRef = some newOne
      ∧ readH hp1 r = some (extendSchema base newOne) := by
  have hfresh := freshRef_not_mem hp
  have hbne : baseRef ≠ freshRef hp := fun he =>
    hfresh (he ▸ readH_some_mem hp baseRef base hb)
  have hnne : newRef ≠ freshRef hp := fun he =>
    hfresh (he ▸ readH_some_mem hp newRef newOne hn)
  refine ⟨_, freshRef hp, rfl, hfresh, ?_, ?_, ?_⟩
  · rw [extendSchemaLoop_frame _ _ _ baseRef hbne, readH_cons_ne hp _ baseRef _ hbne]
    exact hb
  · rw [extendSchemaLoop_frame _ _ _ newRef hnne, readH_cons_ne hp _ newRef _ hnne]
    exact hn
  · rw [hb, hn]
    simp only [Option.getD_some]
    exact extendSchemaLoop_result _ _ _ base (readH_cons_self hp (freshRef hp) base)

theorem extendSchemaH_fresh_frame_witness :
    ∃ hp1 r, extendSchemaH [(1, [("a", uintBase)]), (2, [("b", enumRewardBase)])] 1 2 = (hp1, r)
      ∧ r ∉ heapDom [(1, [("a", uintBase)]), (2, [("b", enumRewardBase)])]
      ∧ readH hp1 1 = some [("a", uintBase)]
      ∧ readH hp1 2 = some [("b", enumRewardBase)]
      ∧ readH hp1 r = some (extendSchema [("a", uintBase)] [("b", enumRewardBase)]) :=
  extendSchemaH_fresh_frame _ 1 2 _ _ rfl rfl

/-- A descriptor as a JS method table whose `verifySerializedValue` is, a
priori, allowed to touch the heap of live objects (a JS method can close
over and mutate anything); the spec's descriptor invariant (section 3)
says it never does. -/
structure StatefulDataType where
  allowNullS : Bool
  verifySerializedValueS : Heap SObj → JValue → Heap SObj × Option String

/-- The walk of `verifySchema(schema, data)` threaded through the heap of live
objects: the walk itself performs no write, the heap only flows through
the descriptors' `verifySerializedValue` calls. -/
def verifySchemaS : Heap SObj → List (String × StatefulDataType) → JValue →
    Heap SObj × Except String (Option String)
  | w, [], _ => (w, .ok none)
  | w, (key, d) :: rest, data =>
    match hasOwnPropertyE data key with
    | .error ex => (w, .error ex)
    | .ok false =>
      (w, .ok (some ("verify: missing key required by schema in stored data: " ++ key)))
    | .ok true =>
      match getMemberE data key with
      | .error ex => (w, .error ex)
      | .ok rawValue =>
        if !d.allowNullS && isNullOrUndefined rawValue then
          (w, .ok (some ("verify: non-nullable entry is null: " ++ key)))
        else
          match d.verifySerializedValueS w rawValue with
          | (w1, some errorStatus) =>
            if errorStatus == "" then verifySchemaS w1 rest data
            else (w1, .ok (some ("verify: " ++ errorStatus)))
          | (w1, none) => verifySchemaS w1 rest data

/-- C6: the verify-only walk neither mutates nor constructs anything and
calls only `verifySerializedValue`.  First: when every descriptor's
`verifySerializedValue` is heap-pure (the spec's descriptor invariant),
`verifySchemaS` leaves the heap of live objects exactly as it was.
Second: `verifySchema`'s result is unchanged when every descriptor's
`serialize` and `deserializeWithVerify` behavior is replaced arbitrarily —
the walk's outcome depends only on each field's key, `allowNull`, and
`verifySerializedValue`. -/
theorem verifySchema_readonly_verify_only :
    (∀ (schema : List (String × StatefulDataType)) (data : JValue) (w : Heap SObj),
      (∀ kd : String × StatefulDataType, kd ∈ schema →
        ∀ (w2 : Heap SObj) (v : JValue), (kd.2.verifySerializedValueS w2 v).1 = w2) →
      (verifySchemaS w schema data).1 = w)
    ∧ (∀ (s1 s2 : Schema) (data : JValue),
      List.Forall₂ (fun a b : String × BaseDataType =>
        a.1 = b.1 ∧ a.2.allowNull = b.2.allowNull
          ∧ a.2.verifySerializedValue = b.2.verifySerializedValue) s1 s2 →
      verifySchema s1 data = verifySchema s2 data) := by
  constructor
  · intro schema data
    induction schema with
    | nil => intro w _; rfl
    | cons kd rest ih =>
      intro w hpure
      obtain ⟨key, d⟩ := kd
      simp only [verifySchemaS]
      cases h1 : hasOwnPropertyE data key with
      | error ex => rfl
      | ok b =>
        cases b with
        | false => rfl
        | true =>
          cases h2 : getMemberE data key with
          | error ex => rfl
          | ok raw =>
            by_cases h3 : (!d.allowNullS && isNullOrUndefined raw) = true
            · simp only [h3, if_true]
            · simp only [h3, if_false, Bool.false_eq_true]
              have hd := hpure (key, d) (List.mem_cons_self _ _) w raw
              cases h4 : d.verifySerializedValueS w raw with
              | mk w1 st =>
                rw [h4] at hd
                have hrest : ∀ kd2 : String × StatefulDataType, kd2 ∈ rest →
                    ∀ (w2 : Heap SObj) (v : JValue),
                      (kd2.2.verifySerializedValueS w2 v).1 = w2 :=
                  fun kd2 hkd2 => hpure kd2 (List.mem_cons_of_mem _ hkd2)
                cases st with
                | none =>
                  rw [ih w1 hrest]
                  exact hd
                | some e =>
                  by_cases h5 : (e == "") = true
                  · simp only [h5, if_true]
                    rw [ih w1 hrest]
                    exact hd
                  · simp only [h5, if_false, Bool.false_eq_true]
                    exact hd
  · intro s1 s2 data hrel
    induction hrel with
    | nil => rfl
    | cons h1 h2 ih =>
      rename_i a b l1 l2
      obtain ⟨k1, d1⟩ := a
      obtain ⟨k2, d2⟩ := b
      obtain ⟨hkey, hnull, hverify⟩ := h1
      simp only at hkey hnull hverify
      subst hkey
      simp only [verifySchema, hnull, hverify, ih]

theorem verifySchema_readonly_verify_only_witness :
    (verifySchemaS [(0, sampleObj)]
        [("level", ⟨false, fun w _ => (w, none)⟩)] (.obj [])).1 = [(0, sampleObj)]
    ∧ verifySchema [("level", { uintBase with serialize := fun _ => .null })] (.obj [])
        = verifySchema [("level", uintBase)] (.obj []) :=
  ⟨verifySchema_readonly_verify_only.1 [("level", ⟨false, fun w _ => (w, none)⟩)]
      (.obj []) [(0, sampleObj)]
      (by
        intro kd hkd w2 v
        rcases List.mem_cons.mp hkd with h | h
        · subst h
          rfl
        · cases h),
   verifySchema_readonly_verify_only.2 _ _ (.obj [])
      (List.Forall₂.cons ⟨rfl, rfl, rfl⟩ List.Forall₂.nil)⟩

/-- The walk of `serializeSchema(obj, schema, mergeWith)` at the heap level: the
`mergeWith` object lives behind `mergeRef`; every iteration performs the
write `mergeWith[key] = schema[key].serialize(obj[key])` at that same
reference, and the function returns the reference it was given. -/
def serializeSchemaH (obj : SObj) (mergeRef : Nat) :
    Heap (List (String × JValue)) → Schema → Option (Heap (List (String × JValue)) × Nat)
  | hp, [] => some (hp, mergeRef)
  | hp, (key, descriptor) :: rest =>
    if hasKey obj.fields key then
      serializeSchemaH obj mergeRef
        (writeH hp mergeRef
          (setKey ((readH hp mergeRef).getD []) key (descriptor.serialize (getFieldD obj key))))
        rest
    else none

/-- C4: for an object owning a field for every schema key (and a JS
schema, whose keys are unique), `serializeSchema` succeeds and returns the
`mergeWith` object itself (at the heap level, the very reference it was
handed, every other reference untouched), in which each schema key is
bound to that key's descriptor's `serialize` of the object's field value
and every `mergeWith` entry under a non-schema key is left unchanged — so
entries already populated by a base-class call survive a derived-class
call. -/
theorem serializeSchema_merges (obj : SObj) (mergeRef : Nat) :
    ∀ (schema : Schema) (mergeWith : List (String × JValue))
      (hp : Heap (List (String × JValue))),
      (∀ kd : String × BaseDataType, kd ∈ schema → hasKey obj.fields kd.1 = true) →
      (schema.map Prod.fst).Nodup →
      readH hp mergeRef = some mergeWith →
      ∃ m hp1,
        serializeSchema obj schema mergeWith = some m
        ∧ serializeSchemaH obj mergeRef hp schema = some (hp1, mergeRef)
        ∧ readH hp1 mergeRef = some m
        ∧ (∀ r, r ≠ mergeRef → readH hp1 r = readH hp r)
        ∧ (∀ kd : String × BaseDataType, kd ∈ schema →
            lookupKey m kd.1 = some (kd.2.serialize (getFieldD obj kd.1)))
        ∧ (∀ k, (∀ kd : String × BaseDataType, kd ∈ schema → kd.1 ≠ k) →
            lookupKey m k = lookupKey mergeWith k) := by
  intro schema
  induction schema with
  | nil =>
    intro mergeWith hp _ _ hread
    exact ⟨mergeWith, hp, rfl, rfl, hread, fun r _ => rfl,
      fun kd hkd => absurd hkd (List.not_mem_nil _),
      fun k _ => rfl⟩
  | cons kd0 rest ih =>
    intro mergeWith hp hOwn hNodup hread
    obtain ⟨key, d⟩ := kd0
    have hkey : hasKey obj.fields key = true := hOwn (key, d) (List.mem_cons_self _ _)
    obtain ⟨hnotin, hNodup2⟩ :=
      List.nodup_cons.mp (by simpa only [List.map_cons] using hNodup)
    have hkeysne : ∀ kd2 : String × BaseDataType, kd2 ∈ rest → kd2.1 ≠ key :=
      fun kd2 hkd2 he => hnotin (he ▸ List.mem_map_of_mem Prod.fst hkd2)
    obtain ⟨m, hp1, hv, hh, hm, hframe, hkeys, hother⟩ :=
      ih (setKey mergeWith key (d.serialize (getFieldD obj key)))
        (writeH hp mergeRef (setKey mergeWith key (d.serialize (getFieldD obj key))))
        (fun kd2 hkd2 => hOwn kd2 (List.mem_cons_of_mem _ hkd2)) hNodup2
        (readH_writeH_self hp mergeRef _ mergeWith hread)
    refine ⟨m, hp1, ?_, ?_, hm, ?_, ?_, ?_⟩
    · simp only [serializeSchema, hkey, if_true]
      exact hv
    · simp only [serializeSchemaH, hkey, if_true]
      rw [hread]
      simp only [Option.getD_some]
      exact hh
    · intro r hr
      rw [hframe r hr, readH_writeH_ne hp mergeRef r _ hr]
    · intro kd2 hkd2
      rcases List.mem_cons.mp hkd2 with h | h
      · subst h
        show lookupKey m key = some (d.serialize (getFieldD obj key))
        rw [hother key hkeysne]
        exact lookupKey_setKey_self mergeWith key _
      · exact hkeys kd2 h
    · intro k hk
      have hkne : key ≠ k := hk (key, d) (List.mem_cons_self _ _)
      rw [hother k (fun kd2 hkd2 => hk kd2 (List.mem_cons_of_mem _ hkd2))]
      exact lookupKey_setKey_ne mergeWith key k _ (Ne.symm hkne)

theorem serializeSchema_merges_witness :
    ∃ m hp1,
      serializeSchema ⟨"HubGoals", [("level", .num 3), ("reward", .str "belt")]⟩
          [("level", uintBase), ("reward", enumRewardBase)] [("extra", .bool true)] = some m
      ∧ serializeSchemaH ⟨"HubGoals", [("level", .num 3), ("reward", .str "belt")]⟩ 5
          [(5, [("extra", .bool true)])] [("level", uintBase), ("reward", enumRewardBase)]
          = some (hp1, 5)
      ∧ readH hp1 5 = some m
      ∧ (∀ r, r ≠ 5 → readH hp1 r = readH [(5, [("extra", .bool true)])] r)
      ∧ (∀ kd : String × BaseDataType, kd ∈ [("level", uintBase), ("reward", enumRewardBase)] →
          lookupKey m kd.1 = some (kd.2.serialize
            (getFieldD ⟨"HubGoals", [("level", .num 3), ("reward", .str "belt")]⟩ kd.1)))
      ∧ (∀ k, (∀ kd : String × BaseDataType,
            kd ∈ [("level", uintBase), ("reward", enumRewardBase)] → kd.1 ≠ k) →
          lookupKey m k = lookupKey [("extra", .bool true)] k) :=
  serializeSchema_merges ⟨"HubGoals", [("level", .num 3), ("reward", .str "belt")]⟩ 5
    [("level", uintBase), ("reward", enumRewardBase)]
    [("extra", .bool true)] [(5, [("extra", .bool true)])]
    (by
      intro kd hkd
      rcases List.mem_cons.mp hkd with h | h
      · subst h
        rfl
      · rcases List.mem_cons.mp h with h2 | h2
        · subst h2
          rfl
        · cases h2)
    (by decide)
    rfl

theorem serializeD_nullable_ne (inner : DataType) (v : JValue) (h : v ≠ .null) :
    serializeD (.nullable inner) v = serializeD inner v := by
  cases v <;> first
    | exact absurd rfl h
    | rfl

theorem deserializeWithVerifyD_nullable_ne (inner : DataType) (raw : JValue) (h : raw ≠ .null) :
    deserializeWithVerifyD (.nullable inner) raw = deserializeWithVerifyD inner raw := by
  cases raw <;> first
    | exact absurd rfl h
    | rfl

theorem serializeD_ne_null (d : DataType) :
    ∀ v : JValue, validForB d v = true → v ≠ .null → serializeD d v ≠ .null := by
  induction d with
  | int => intro v hv _; cases v <;> simp_all [validForB, serializeD]
  | uint => intro v hv _; cases v <;> simp_all [validForB, serializeD]
  | float => intro v hv _; cases v <;> simp_all [validForB, serializeD]
  | ufloat => intro v hv _; cases v <;> simp_all [validForB, serializeD]
  | str => intro v hv _; cases v <;> simp_all [validForB, serializeD]
  | bool => intro v hv _; cases v <;> simp_all [validForB, serializeD]
  | vector => intro v hv _; cases v <;> simp_all [validForB, serializeD]
  | enum values => intro v hv _; cases v <;> simp_all [validForB, serializeD]
  | nullable inner ih =>
    intro v hv hne
    cases v
    case null => exact absurd rfl hne
    all_goals
      rw [serializeD_nullable_ne inner _ (by simp)]
      exact ih _ (by simpa [validForB] using hv) (by simp)
  | array inner ih => intro v hv _; cases v <;> simp_all [validForB, serializeD]
  | keyValueMap inner flag ih => intro v hv _; cases v <;> simp_all [validForB, serializeD]

theorem mapExceptList_roundtrip (f : JValue → Except String JValue) (g : JValue → JValue)
    (xs : List JValue) (h : ∀ x ∈ xs, f (g x) = .ok x) :
    mapExceptList f (xs.map g) = .ok xs := by
  induction xs with
  | nil => rfl
  | cons x rest ih =>
    simp only [List.map_cons, mapExceptList]
    rw [h x (List.mem_cons_self _ _), ih (fun y hy => h y (List.mem_cons_of_mem _ hy))]

theorem mapExceptFields_roundtrip (f : JValue → Except String JValue) (g : JValue → JValue)
    (fs : List (String × JValue)) (h : ∀ kv ∈ fs, f (g kv.2) = .ok kv.2) :
    mapExceptFields f (fs.map (fun kv => (kv.1, g kv.2))) = .ok fs := by
  induction fs with
  | nil => rfl
  | cons kv rest ih =>
    obtain ⟨k, x⟩ := kv
    simp only [List.map_cons, mapExceptFields]
    rw [h (k, x) (List.mem_cons_self _ _), ih (fun kv2 hkv2 => h kv2 (List.mem_cons_of_mem _ hkv2))]

theorem mapFieldsFilter_true (f : JValue → JValue) (fs : List (String × JValue)) :
    mapFieldsFilter f true fs = fs.map (fun kv => (kv.1, f kv.2)) := by
  induction fs with
  | nil => rfl
  | cons kv rest ih =>
    obtain ⟨k, x⟩ := kv
    simp [mapFieldsFilter, ih]

/-- C1 (amended): for every descriptor among the round-trip variants in
which every key-value map retains empty values, and every value valid for
that descriptor, `deserializeWithVerify (serialize v)` succeeds with a
value equal to `v`.  (With `includeEmptyValues = false` a map's
empty/default entries are pruned on serialize and are absent after the
round trip — see the counterexample.) -/
theorem roundTrip (d : DataType) :
    ∀ v : JValue, noPruning d = true → validForB d v = true →
      deserializeWithVerifyD d (serializeD d v) = .ok v := by
  induction d with
  | int =>
    intro v _ hv
    cases v <;> simp_all [validForB, serializeD, deserializeWithVerifyD]
  | uint =>
    intro v _ hv
    cases v <;> simp_all [validForB, serializeD, deserializeWithVerifyD]
  | float =>
    intro v _ hv
    cases v <;> simp_all [validForB, serializeD, deserializeWithVerifyD]
  | ufloat =>
    intro v _ hv
    cases v <;> simp_all [validForB, serializeD, deserializeWithVerifyD]
  | str =>
    intro v _ hv
    cases v <;> simp_all [validForB, serializeD, deserializeWithVerifyD]
  | bool =>
    intro v _ hv
    cases v <;> simp_all [validForB, serializeD, deserializeWithVerifyD]
  | vector =>
    intro v _ hv
    cases v <;> simp_all [validForB, serializeD, deserializeWithVerifyD]
  | enum values =>
    intro v _ hv
    cases v <;> simp_all [validForB, serializeD, deserializeWithVerifyD]
  | nullable inner ih =>
    intro v hp hv
    cases v
    case null => rfl
    all_goals
      simp only [validForB] at hv
      rw [serializeD_nullable_ne inner _ (by simp),
        deserializeWithVerifyD_nullable_ne inner _ (serializeD_ne_null inner _ hv (by simp))]
      exact ih _ hp hv
  | array inner ih =>
    intro v hp hv
    cases v
    case arr xs =>
      simp only [validForB, List.all_eq_true] at hv
      simp only [serializeD, deserializeWithVerifyD]
      rw [mapExceptList_roundtrip (deserializeWithVerifyD inner) (serializeD inner) xs
        (fun x hx => ih x hp (hv x hx))]
    all_goals
      simp only [validForB] at hv
      exact absurd hv (by decide)
  | keyValueMap inner flag ih =>
    intro v hp hv
    have h2 : flag = true ∧ noPruning inner = true := by
      simpa [noPruning] using hp
    obtain ⟨hflag, hinner⟩ := h2
    subst hflag
    cases v
    case obj fs =>
      simp only [validForB, List.all_eq_true] at hv
      simp only [serializeD, deserializeWithVerifyD]
      rw [mapFieldsFilter_true]
      rw [mapExceptFields_roundtrip (deserializeWithVerifyD inner) (serializeD inner) fs
        (fun kv hkv => ih kv.2 hinner (hv kv hkv))]
    all_goals
      simp only [validForB] at hv
      exact absurd hv (by decide)

theorem roundTrip_witness :
    noPruning (.array (.nullable .int)) = true
    ∧ validForB (.array (.nullable .int)) (.arr [.num 3, .null]) = true
    ∧ deserializeWithVerifyD (.array (.nullable .int))
        (serializeD (.array (.nullable .int)) (.arr [.num 3, .null]))
      = .ok (.arr [.num 3, .null]) :=
  ⟨rfl, rfl, roundTrip (.array (.nullable .int)) (.arr [.num 3, .null]) rfl rfl⟩

/-- C1 counterexample: the key-value map descriptor with
`includeEmptyValues = false` prunes the valid entry `k: 0` on serialize,
so deserializing the serialized form succeeds but yields the empty map,
not a value equal to the original. -/
theorem roundTrip_counterexample :
    validForB (.keyValueMap .int false) (.obj [("k", .num 0)]) = true
    ∧ deserializeWithVerifyD (.keyValueMap .int false)
        (serializeD (.keyValueMap .int false) (.obj [("k", .num 0)]))
      = .ok (.obj [])
    ∧ JValue.obj [] ≠ JValue.obj [("k", JValue.num 0)] := by
  refine ⟨rfl, rfl, ?_⟩
  simp
